import Mathlib

/-!
Verification of the group-assignment submission portal (`app.py`).

The development shallowly embeds the Python source:
pure string functions become Lean functions on `String`/`List Char`,
the SQLite tables become Lean lists threaded explicitly, SQL `ORDER BY`
becomes a stable insertion sort over rows in insertion (rowid) order,
and the filesystem is an explicit existence predicate on paths.
-/

namespace App

/-- Python `str.isspace` / the whitespace set stripped by `str.strip()`:
the exact Unicode list (U+0009–U+000D, U+001C–U+001F, space, U+0085, U+00A0,
U+1680, U+2000–U+200A, U+2028, U+2029, U+202F, U+205F, U+3000). -/
def pyIsSpace (c : Char) : Bool :=
  let n := c.toNat
  (9 ≤ n && n ≤ 13) || (28 ≤ n && n ≤ 31) || n == 32 || n == 0x85 || n == 0xA0 ||
  n == 0x1680 || (0x2000 ≤ n && n ≤ 0x200A) || n == 0x2028 || n == 0x2029 ||
  n == 0x202F || n == 0x205F || n == 0x3000

/-- Python `str.isalnum`, embedded exactly for code points below 0x100
(ASCII digits and letters, plus the Latin-1 letters ª µ º À–Ö Ø–ö ø–ÿ and the
numeric characters ² ³ ¹ ¼ ½ ¾); code points ≥ 0x100 are modelled as
non-alphanumeric.  Every property proved below is insensitive to which
additional non-whitespace, non-separator code points count as alphanumeric,
and every refutation below already lives inside Latin-1. -/
def pyIsAlnum (c : Char) : Bool :=
  let n := c.toNat
  (48 ≤ n && n ≤ 57) || (65 ≤ n && n ≤ 90) || (97 ≤ n && n ≤ 122) ||
  n == 0xAA || n == 0xB2 || n == 0xB3 || n == 0xB5 || n == 0xB9 || n == 0xBA ||
  n == 0xBC || n == 0xBD || n == 0xBE ||
  (0xC0 ≤ n && n ≤ 0xD6) || (0xD8 ≤ n && n ≤ 0xF6) || (0xF8 ≤ n && n ≤ 0xFF)

/-- `l` with its longest whitespace prefix and suffix removed. -/
def pyStripList (l : List Char) : List Char :=
  ((l.dropWhile pyIsSpace).reverse.dropWhile pyIsSpace).reverse

/-- Python `str.strip()` (no argument): remove leading and trailing
Unicode whitespace. -/
def pyStrip (s : String) : String :=
  ⟨pyStripList s.data⟩

/-- The keep-test of `sanitize_name`: `c.isalnum() or c in "-_"`. -/
def keepChar (c : Char) : Bool :=
  pyIsAlnum c || c == '-' || c == '_'

/-- `sanitize_name` from `app.py`:
`"".join(c if c.isalnum() or c in "-_" else "_" for c in name.strip())`. -/
def sanitize_name (name : String) : String :=
  ⟨(pyStrip name).data.map (fun c => if keepChar c then c else '_')⟩

/-- A character of the ASCII class `[A-Za-z0-9_-]`.  Modelled from the spec's
words (the spec asserts the sanitizer's output stays inside this ASCII set);
it is compared against the behaviour of `sanitize_name` itself. -/
def specAsciiToken (c : Char) : Bool :=
  let n := c.toNat
  (48 ≤ n && n ≤ 57) || (65 ≤ n && n ≤ 90) || (97 ≤ n && n ≤ 122) ||
  n == 45 || n == 95

theorem pyIsAlnum_not_space {c : Char} (h : pyIsAlnum c = true) :
    pyIsSpace c = false := by
  cases h2 : pyIsSpace c with
  | false => rfl
  | true =>
      exfalso
      simp only [pyIsAlnum, Bool.or_eq_true, Bool.and_eq_true,
        decide_eq_true_eq, beq_iff_eq] at h
      simp only [pyIsSpace, Bool.or_eq_true, Bool.and_eq_true,
        decide_eq_true_eq, beq_iff_eq] at h2
      omega

theorem keepChar_not_space {c : Char} (h : keepChar c = true) :
    pyIsSpace c = false := by
  simp only [keepChar, Bool.or_eq_true, beq_iff_eq] at h
  rcases h with (h | h) | h
  · exact pyIsAlnum_not_space h
  · subst h; decide
  · subst h; decide

theorem keepChar_not_separator {c : Char} (h : keepChar c = true) :
    c ≠ '/' ∧ c ≠ '\\' := by
  constructor <;> rintro rfl <;> exact absurd h (by decide)

theorem underscore_keep : keepChar '_' = true := by decide

theorem underscore_not_space : pyIsSpace '_' = false := by decide

theorem dropWhile_eq_self_of_all {p : Char → Bool} {l : List Char}
    (h : ∀ c ∈ l, p c = false) : l.dropWhile p = l := by
  cases l with
  | nil => rfl
  | cons x xs =>
      simp [List.dropWhile, h x (by simp)]

theorem pyStripList_eq_self {l : List Char}
    (h : ∀ c ∈ l, pyIsSpace c = false) : pyStripList l = l := by
  unfold pyStripList
  rw [dropWhile_eq_self_of_all h, dropWhile_eq_self_of_all, List.reverse_reverse]
  intro c hc
  rw [List.mem_reverse] at hc
  exact h c hc

theorem sanitize_mem_keep {s : String} {c : Char}
    (hc : c ∈ (sanitize_name s).data) : keepChar c = true := by
  simp only [sanitize_name, List.mem_map] at hc
  obtain ⟨a, _, ha⟩ := hc
  by_cases hk : keepChar a = true
  · rw [← ha]; simp [hk]
  · have : c = '_' := by rw [← ha]; simp [Bool.not_eq_true] at hk; simp [hk]
    rw [this]; exact underscore_keep

/-- **C1** — the claim as stated is refuted within the length clause's
companion charset clause: the input `"é"` strips to itself, `'é'` is
alphanumeric for Python, so `sanitize_name "é" = "é"`, which contains a
character outside the ASCII class `[A-Za-z0-9_-]`. -/
theorem sanitize_ascii_refuted :
    sanitize_name "é" = "é" ∧ (sanitize_name "é").data.all specAsciiToken = false := by
  constructor <;> decide

/-- **C1** (amended) — for every input string `s`, `sanitize_name s` has the
same length as the stripped input, and every character of the output is
alphanumeric in Python's Unicode sense, a hyphen, or an underscore (every
other character of the stripped input is replaced one-for-one by `'_'`);
ASCII-only output is guaranteed only for ASCII input. -/
theorem sanitize_charset_and_length (s : String) :
    (sanitize_name s).length = (pyStrip s).length ∧
      ∀ c ∈ (sanitize_name s).data, (pyIsAlnum c || c == '-' || c == '_') = true := by
  constructor
  · simp only [sanitize_name, String.length, List.length_map]
  · intro c hc
    exact sanitize_mem_keep hc

/-- **C8** — `sanitize_name` is idempotent: sanitizing an already sanitized
string changes nothing, because every output character passes the keep-test
and none is whitespace, so the second strip and the second substitution are
both the identity. -/
theorem sanitize_idempotent (s : String) :
    sanitize_name (sanitize_name s) = sanitize_name s := by
  have hkeep : ∀ c ∈ (sanitize_name s).data, keepChar c = true :=
    fun c hc => sanitize_mem_keep hc
  have hnospace : ∀ c ∈ (sanitize_name s).data, pyIsSpace c = false :=
    fun c hc => keepChar_not_space (hkeep c hc)
  show (⟨(pyStrip (sanitize_name s)).data.map _⟩ : String) = sanitize_name s
  have hstrip : pyStrip (sanitize_name s) = sanitize_name s := by
    show (⟨pyStripList (sanitize_name s).data⟩ : String) = sanitize_name s
    rw [pyStripList_eq_self hnospace]
  rw [hstrip]
  have : (sanitize_name s).data.map (fun c => if keepChar c then c else '_') =
      (sanitize_name s).data := by
    rw [List.map_congr_left (g := id) (fun c hc => by simp [hkeep c hc]),
      List.map_id]
  rw [this]

/-- **C9** — every character of `sanitize_name s` is neither a path
separator (`'/'` or `'\\'`) nor whitespace, so a sanitized class, group or
file token is a single confined path component. -/
theorem sanitize_no_separator_no_space (s : String) (c : Char)
    (hc : c ∈ (sanitize_name s).data) :
    c ≠ '/' ∧ c ≠ '\\' ∧ pyIsSpace c = false := by
  have hk := sanitize_mem_keep hc
  obtain ⟨h1, h2⟩ := keepChar_not_separator hk
  exact ⟨h1, h2, keepChar_not_space hk⟩

/-- Witness for C9 at a concrete input: `'a'` occurs in
`sanitize_name " a b "` and satisfies the conclusion. -/
theorem sanitize_no_separator_no_space_witness :
    'a' ∈ (sanitize_name " a b ").data ∧
      ('a' ≠ '/' ∧ 'a' ≠ '\\' ∧ pyIsSpace 'a' = false) :=
  ⟨by decide, sanitize_no_separator_no_space " a b " 'a' (by decide)⟩

/-! ### A stable insertion sort, modelling SQL `ORDER BY`

`SELECT ... ORDER BY key` is modelled as a stable sort of the table's rows
taken in insertion (rowid) order: a row is inserted after every earlier row
whose key does not force it later. -/

/-- Insert `x` into `l` after every element `y` with `le y x`. -/
def insertBy (le : α → α → Bool) (x : α) : List α → List α
  | [] => [x]
  | y :: ys => if le y x then y :: insertBy le x ys else x :: y :: ys

/-- Stable insertion sort: elements are inserted left to right, each after
all already-placed elements that compare no later than it, so equal keys
keep their input order. -/
def sortBy (le : α → α → Bool) (l : List α) : List α :=
  l.foldl (fun acc x => insertBy le x acc) []

theorem insertBy_perm (le : α → α → Bool) (x : α) (l : List α) :
    List.Perm (insertBy le x l) (x :: l) := by
  induction l with
  | nil => simp [insertBy]
  | cons y ys ih =>
      by_cases h : le y x = true
      · simp only [insertBy, h, if_true]
        exact ((ih.cons y).trans (List.Perm.swap x y ys))
      · simp [insertBy, h]

theorem sortBy_go_perm (le : α → α → Bool) (l acc : List α) :
    List.Perm (l.foldl (fun acc x => insertBy le x acc) acc) (l ++ acc) := by
  induction l generalizing acc with
  | nil => simp
  | cons y ys ih =>
      simp only [List.foldl_cons, List.cons_append]
      exact (ih (insertBy le y acc)).trans
        ((List.Perm.append_left ys (insertBy_perm le y acc)).trans
          List.perm_middle)

theorem sortBy_perm (le : α → α → Bool) (l : List α) :
    List.Perm (sortBy le l) l := by
  have := sortBy_go_perm le l []
  simpa [sortBy] using this

theorem insertBy_pairwise (le : α → α → Bool)
    (htot : ∀ a b, le a b = true ∨ le b a = true)
    (htrans : ∀ a b c, le a b = true → le b c = true → le a c = true)
    (x : α) (l : List α) (hl : l.Pairwise (fun a b => le a b = true)) :
    (insertBy le x l).Pairwise (fun a b => le a b = true) := by
  induction l with
  | nil => simp [insertBy]
  | cons y ys ih =>
      rw [List.pairwise_cons] at hl
      obtain ⟨hy, hys⟩ := hl
      by_cases h : le y x = true
      · have hins : insertBy le x (y :: ys) = y :: insertBy le x ys := by
          simp [insertBy, h]
        rw [hins, List.pairwise_cons]
        refine ⟨?_, ih hys⟩
        intro z hz
        have hz2 : z ∈ x :: ys := (insertBy_perm le x ys).mem_iff.mp hz
        rcases List.mem_cons.mp hz2 with rfl | hz3
        · exact h
        · exact hy z hz3
      · have hins : insertBy le x (y :: ys) = x :: y :: ys := by
          simp [insertBy, h]
        rw [hins, List.pairwise_cons]
        have hxy : le x y = true := (htot x y).resolve_right (fun hc => h hc)
        refine ⟨?_, by rw [List.pairwise_cons]; exact ⟨hy, hys⟩⟩
        intro z hz
        rcases List.mem_cons.mp hz with rfl | hz3
        · exact hxy
        · exact htrans x y z hxy (hy z hz3)

theorem sortBy_pairwise (le : α → α → Bool)
    (htot : ∀ a b, le a b = true ∨ le b a = true)
    (htrans : ∀ a b c, le a b = true → le b c = true → le a c = true)
    (l : List α) :
    (sortBy le l).Pairwise (fun a b => le a b = true) := by
  have go : ∀ acc, acc.Pairwise (fun a b => le a b = true) →
      (l.foldl (fun acc x => insertBy le x acc) acc).Pairwise
        (fun a b => le a b = true) := by
    induction l with
    | nil => intro acc hacc; simpa using hacc
    | cons y ys ih =>
        intro acc hacc
        simp only [List.foldl_cons]
        exact ih (insertBy le y acc) (insertBy_pairwise le htot htrans y acc hacc)
  exact go [] (by simp)

/-! ### Data model: the `submissions` table -/

/-- One row of the `submissions` table (§3 of the spec / `init_db`). -/
structure Submission where
  id : Nat
  timestamp : String
  class_name : String
  group_name : String
  notes : String
  file_path : String
  file_name : String
  file_size : Nat
deriving DecidableEq

/-- The `ORDER BY timestamp DESC` comparator: row `a` may precede row `b`
exactly when `b.timestamp ≤ a.timestamp` (SQLite compares `TEXT` values
lexicographically, which on the `"YYYY-MM-DD HH:MM:SS"` format is
chronological order). -/
def subLe (a b : Submission) : Bool :=
  decide (b.timestamp ≤ a.timestamp)

/-- `get_all_submissions` from `app.py`:
`SELECT * FROM submissions ORDER BY timestamp DESC` over the table rows in
insertion (rowid) order `db`. -/
def get_all_submissions (db : List Submission) : List Submission :=
  sortBy subLe db

theorem subLe_total (a b : Submission) : subLe a b = true ∨ subLe b a = true := by
  simp only [subLe, decide_eq_true_eq]
  exact le_total b.timestamp a.timestamp

theorem subLe_trans (a b c : Submission) (h1 : subLe a b = true)
    (h2 : subLe b c = true) : subLe a c = true := by
  simp only [subLe, decide_eq_true_eq] at h1 h2 ⊢
  exact le_trans h2 h1

theorem filter_insertBy (x : Submission) (l : List Submission) (t : String)
    (hl : l.Pairwise (fun a b => subLe a b = true)) :
    (insertBy subLe x l).filter (fun r => r.timestamp == t) =
      if x.timestamp == t then
        l.filter (fun r => r.timestamp == t) ++ [x]
      else
        l.filter (fun r => r.timestamp == t) := by
  induction l with
  | nil => cases h : (x.timestamp == t) <;> simp [insertBy, List.filter, h]
  | cons y ys ih =>
      rw [List.pairwise_cons] at hl
      obtain ⟨hy, hys⟩ := hl
      by_cases h : subLe y x = true
      · have hins : insertBy subLe x (y :: ys) = y :: insertBy subLe x ys := by
          simp [insertBy, h]
        rw [hins, List.filter_cons, ih hys]
        cases hx : (x.timestamp == t) <;> cases hyt : (y.timestamp == t) <;>
          simp [List.filter_cons, hx, hyt]
      · have hins : insertBy subLe x (y :: ys) = x :: y :: ys := by
          simp [insertBy, h]
        have hylt : y.timestamp < x.timestamp := by
          simp only [subLe, decide_eq_true_eq] at h
          exact lt_of_not_le h
        rw [hins]
        cases hx : (x.timestamp == t)
        · simp [List.filter_cons, hx]
        · have hxt : x.timestamp = t := by simpa using hx
          have hyt : (y.timestamp == t) = false := by
            simp only [beq_eq_false_iff_ne, ne_eq]
            intro he
            rw [he, hxt] at hylt
            exact lt_irrefl t hylt
          have hfilter : ys.filter (fun r => r.timestamp == t) = [] := by
            rw [List.filter_eq_nil_iff]
            intro z hz
            have hzy : subLe y z = true := hy z hz
            simp only [subLe, decide_eq_true_eq] at hzy
            have hzx : z.timestamp < x.timestamp := lt_of_le_of_lt hzy hylt
            simp only [beq_iff_eq]
            intro he
            rw [he, hxt] at hzx
            exact lt_irrefl t hzx
          simp [List.filter_cons, hx, hyt, hfilter]

theorem filter_sortBy_go (l : List Submission) (t : String) :
    ∀ acc, acc.Pairwise (fun a b => subLe a b = true) →
      (l.foldl (fun acc x => insertBy subLe x acc) acc).filter
          (fun r => r.timestamp == t) =
        acc.filter (fun r => r.timestamp == t) ++
          l.filter (fun r => r.timestamp == t) := by
  induction l with
  | nil => intro acc hacc; simp
  | cons y ys ih =>
      intro acc hacc
      simp only [List.foldl_cons]
      rw [ih (insertBy subLe y acc)
        (insertBy_pairwise subLe subLe_total subLe_trans y acc hacc)]
      rw [filter_insertBy y acc t hacc, List.filter_cons]
      cases hy : (y.timestamp == t) <;> simp

/-- **C4** — `get_all_submissions` returns a permutation of the whole table,
sorted by timestamp descending, and for each fixed timestamp the rows with
that timestamp appear exactly as they do in insertion order (ties broken by
insertion order).  SQL `ORDER BY` is modelled as a stable sort over the rows
in rowid order. -/
theorem get_all_submissions_sorted (db : List Submission) :
    List.Perm (get_all_submissions db) db ∧
      (get_all_submissions db).Pairwise
        (fun a b => b.timestamp ≤ a.timestamp) ∧
      ∀ t, (get_all_submissions db).filter (fun r => r.timestamp == t) =
        db.filter (fun r => r.timestamp == t) := by
  refine ⟨sortBy_perm subLe db, ?_, ?_⟩
  · have := sortBy_pairwise subLe subLe_total subLe_trans db
    exact this.imp (fun h => by simpa [subLe] using h)
  · intro t
    have := filter_sortBy_go db t [] (by simp)
    simpa [sortBy, get_all_submissions] using this

/-! ### Data model: the `classes` table (class registry) -/

/-- One row of the `classes` table: `id`, `class_name` (UNIQUE),
`is_active` (boolean-as-integer, default 1). -/
structure ClassEntry where
  id : Nat
  class_name : String
  is_active : Nat
deriving DecidableEq

/-- The `classes` table: rows in insertion (rowid) order, plus the next
AUTOINCREMENT id. -/
structure Registry where
  rows : List ClassEntry
  nextId : Nat
deriving DecidableEq

/-- The empty registry created by `init_db`. -/
def initRegistry : Registry := ⟨[], 1⟩

/-- The string comparator for `ORDER BY class_name ASC`. -/
def strLe (a b : String) : Bool := decide (a ≤ b)

/-- `get_active_classes` from `app.py`:
`SELECT class_name FROM classes WHERE is_active = 1 ORDER BY class_name ASC`. -/
def get_active_classes (reg : Registry) : List String :=
  sortBy strLe ((reg.rows.filter (fun r => r.is_active == 1)).map (·.class_name))

/-- `add_class_name` from `app.py`: strip the input; an empty result returns
`False` and changes nothing; otherwise `INSERT OR IGNORE` (the `UNIQUE`
constraint on `class_name` makes the insert a no-op when the name exists,
leaving the existing row — and its `is_active` flag — untouched) and return
`True`. -/
def add_class_name (reg : Registry) (class_name : String) : Registry × Bool :=
  let n := pyStrip class_name
  if n = "" then (reg, false)
  else if reg.rows.any (fun r => r.class_name == n) then (reg, true)
  else ({ rows := reg.rows ++ [⟨reg.nextId, n, 1⟩], nextId := reg.nextId + 1 }, true)

/-- `set_class_active` from `app.py`:
`UPDATE classes SET is_active = ? WHERE id = ?`. -/
def set_class_active (reg : Registry) (class_id : Nat) (active : Bool) : Registry :=
  { reg with
    rows := reg.rows.map (fun r =>
      if r.id == class_id then { r with is_active := if active then 1 else 0 } else r) }

/-- **C5** — `add_class_name` trims its input; on an empty trimmed name it
reports failure and leaves the registry unchanged; otherwise it reports
success, appending a fresh row with `is_active = 1` when no row carries that
exact name, and leaving the registry entirely unchanged (in particular not
reactivating an inactive row) when such a row exists. -/
theorem add_class_name_spec (reg : Registry) (name : String) :
    (pyStrip name = "" → add_class_name reg name = (reg, false)) ∧
      (pyStrip name ≠ "" →
        (add_class_name reg name).2 = true ∧
        ((∃ r ∈ reg.rows, r.class_name = pyStrip name) →
          (add_class_name reg name).1 = reg) ∧
        ((∀ r ∈ reg.rows, r.class_name ≠ pyStrip name) →
          (add_class_name reg name).1 =
            { rows := reg.rows ++ [⟨reg.nextId, pyStrip name, 1⟩],
              nextId := reg.nextId + 1 })) := by
  constructor
  · intro he
    simp [add_class_name, he]
  · intro hne
    by_cases hex : reg.rows.any (fun r => r.class_name == pyStrip name) = true
    · refine ⟨by simp [add_class_name, hne, hex], fun _ => by simp [add_class_name, hne, hex], ?_⟩
      intro hall
      exfalso
      rw [List.any_eq_true] at hex
      obtain ⟨r, hr, hrn⟩ := hex
      exact hall r hr (by simpa using hrn)
    · refine ⟨by simp [add_class_name, hne, hex], ?_, fun _ => by simp [add_class_name, hne, hex]⟩
      intro hsome
      exfalso
      obtain ⟨r, hr, hrn⟩ := hsome
      exact hex (List.any_eq_true.mpr ⟨r, hr, by simpa using hrn⟩)

/-- Witness for C5: on a registry holding an inactive row named `"CS-101"`,
the empty name `"  "` reports failure and changes nothing, while re-adding
`" CS-101 "` reports success and leaves the row (still inactive) untouched. -/
theorem add_class_name_spec_witness :
    (pyStrip "  " = "" ∧
      add_class_name ⟨[⟨1, "CS-101", 0⟩], 2⟩ "  " = (⟨[⟨1, "CS-101", 0⟩], 2⟩, false)) ∧
      (pyStrip " CS-101 " ≠ "" ∧
        (∃ r ∈ (⟨[⟨1, "CS-101", 0⟩], 2⟩ : Registry).rows,
          r.class_name = pyStrip " CS-101 ") ∧
        (add_class_name ⟨[⟨1, "CS-101", 0⟩], 2⟩ " CS-101 ").2 = true ∧
        (add_class_name ⟨[⟨1, "CS-101", 0⟩], 2⟩ " CS-101 ").1 =
          ⟨[⟨1, "CS-101", 0⟩], 2⟩) :=
  ⟨⟨by decide, (add_class_name_spec ⟨[⟨1, "CS-101", 0⟩], 2⟩ "  ").1 (by decide)⟩,
    by decide,
    by decide,
    ((add_class_name_spec ⟨[⟨1, "CS-101", 0⟩], 2⟩ " CS-101 ").2 (by decide)).1,
    ((add_class_name_spec ⟨[⟨1, "CS-101", 0⟩], 2⟩ " CS-101 ").2 (by decide)).2.1
      (by decide)⟩

/-! ### Registry history: every reachable registry has unique class names -/

/-- A registry mutation the admin surface can perform. -/
inductive RegistryOp where
  | add (name : String)
  | setActive (class_id : Nat) (active : Bool)

/-- Apply one operation (`add_class_name` discarding the returned flag, or
`set_class_active`). -/
def applyRegistryOp (reg : Registry) : RegistryOp → Registry
  | .add n => (add_class_name reg n).1
  | .setActive i b => set_class_active reg i b

/-- The registry after a sequence of operations on the freshly created
(empty) `classes` table. -/
def runRegistryOps (ops : List RegistryOp) : Registry :=
  ops.foldl applyRegistryOp initRegistry

theorem names_nodup_applyRegistryOp (reg : Registry) (op : RegistryOp)
    (h : (reg.rows.map (·.class_name)).Nodup) :
    ((applyRegistryOp reg op).rows.map (·.class_name)).Nodup := by
  cases op with
  | add n =>
      show (((add_class_name reg n).1).rows.map (·.class_name)).Nodup
      by_cases he : pyStrip n = ""
      · simp [add_class_name, he]; exact h
      · by_cases hex : reg.rows.any (fun r => r.class_name == pyStrip n) = true
        · simp [add_class_name, he, hex]; exact h
        · have : (add_class_name reg n).1.rows =
              reg.rows ++ [⟨reg.nextId, pyStrip n, 1⟩] := by
            simp [add_class_name, he, hex]
          rw [this, List.map_append, List.nodup_append]
          refine ⟨h, by simp, ?_⟩
          intro a ha hb
          simp only [List.map_cons, List.map_nil, List.mem_singleton] at hb
          rw [List.mem_map] at ha
          obtain ⟨r, hr, hrn⟩ := ha
          rw [List.any_eq_true] at hex
          exact hex ⟨r, hr, by simp [hrn, hb]⟩
  | setActive i b =>
      show ((set_class_active reg i b).rows.map (·.class_name)).Nodup
      have : (set_class_active reg i b).rows.map (·.class_name) =
          reg.rows.map (·.class_name) := by
        rw [set_class_active, List.map_map]
        apply List.map_congr_left
        intro r _
        by_cases hid : r.id = i <;> simp [hid]
      rw [this]; exact h

theorem names_nodup_runRegistryOps (ops : List RegistryOp) :
    (((runRegistryOps ops).rows.map (·.class_name))).Nodup := by
  have go : ∀ reg, (reg.rows.map (·.class_name)).Nodup →
      (((ops.foldl applyRegistryOp reg).rows.map (·.class_name))).Nodup := by
    induction ops with
    | nil => intro reg h; simpa using h
    | cons op rest ih =>
        intro reg h
        simp only [List.foldl_cons]
        exact ih (applyRegistryOp reg op) (names_nodup_applyRegistryOp reg op h)
  exact go initRegistry (by simp [initRegistry])

/-- **C10** — starting from the empty registry, any sequence of
`add_class_name` / `set_class_active` operations yields a registry whose
rows carry pairwise-distinct class names; consequently
`get_active_classes` never lists a duplicate. -/
theorem registry_names_unique (ops : List RegistryOp) :
    (((runRegistryOps ops).rows.map (·.class_name))).Nodup ∧
      (get_active_classes (runRegistryOps ops)).Nodup := by
  refine ⟨names_nodup_runRegistryOps ops, ?_⟩
  have hsub : (((runRegistryOps ops).rows.filter
        (fun r => r.is_active == 1)).map (·.class_name)).Sublist
      ((runRegistryOps ops).rows.map (·.class_name)) :=
    (List.filter_sublist _).map _
  have hnodup := (names_nodup_runRegistryOps ops).sublist hsub
  exact ((sortBy_perm strLe _).nodup_iff).mpr hnodup

/-! ### Admin review surface: filters and summary -/

/-- The "all classes" sentinel of the class filter select box. -/
def allClassesSentinel : String := "(Semua Kelas)"

/-- The "all groups" sentinel of the group filter select box. -/
def allGroupsSentinel : String := "(Semua Kelompok)"

/-- The class filter of the admin panel:
`df[df["class_name"] == selected_class]` unless the sentinel is selected. -/
def filterByClass (df : List Submission) (sel : String) : List Submission :=
  if sel = allClassesSentinel then df else df.filter (fun r => r.class_name == sel)

/-- The group filter of the admin panel, applied to the class-filtered frame:
`df_filtered[df_filtered["group_name"] == selected_group]` unless the
sentinel is selected. -/
def filterByGroup (df : List Submission) (sel : String) : List Submission :=
  if sel = allGroupsSentinel then df else df.filter (fun r => r.group_name == sel)

/-- The admin panel's filtered frame: class filter, then group filter. -/
def adminFiltered (df : List Submission) (selC selG : String) : List Submission :=
  filterByGroup (filterByClass df selC) selG

/-- The lexicographic comparator pandas uses when sorting group keys. -/
def pairLe (p q : String × String) : Bool :=
  decide (p.1 < q.1 ∨ (p.1 = q.1 ∧ p.2 ≤ q.2))

/-- The summary table
`df.groupby(["class_name", "group_name"]).size().reset_index(...)`:
one row per distinct `(class_name, group_name)` pair of `df` (pandas sorts
the keys), carrying the number of submissions of that pair. -/
def summaryOf (db : List Submission) : List (String × String × Nat) :=
  (sortBy pairLe ((db.map (fun r => (r.class_name, r.group_name))).dedup)).map
    (fun p => (p.1, p.2,
      db.countP (fun r => r.class_name == p.1 && r.group_name == p.2)))

/-- The summary shown by the admin panel: the code computes it from the full
frame `df`, not from `df_filtered`, whatever filters are selected. -/
def adminSummary (df : List Submission) (_selC _selG : String) :
    List (String × String × Nat) :=
  summaryOf df

/-- **C7** — exact class then exact group filtering returns precisely the
rows matching both fields; the sentinel leaves its dimension unfiltered; the
displayed summary never depends on the selected filters and each of its
rows counts exactly the matching rows of the full ledger. -/
theorem admin_filter_summary (df : List Submission) (selC selG : String)
    (hc : selC ≠ allClassesSentinel) (hg : selG ≠ allGroupsSentinel) :
    adminFiltered df selC selG =
      df.filter (fun r => r.class_name == selC && r.group_name == selG) ∧
    adminFiltered df allClassesSentinel allGroupsSentinel = df ∧
    adminFiltered df selC allGroupsSentinel =
      df.filter (fun r => r.class_name == selC) ∧
    adminFiltered df allClassesSentinel selG =
      df.filter (fun r => r.group_name == selG) ∧
    adminSummary df selC selG = summaryOf df ∧
    ∀ c g n, (c, g, n) ∈ adminSummary df selC selG →
      n = df.countP (fun r => r.class_name == c && r.group_name == g) := by
  refine ⟨?_, ?_, ?_, ?_, rfl, ?_⟩
  · rw [adminFiltered, filterByClass, filterByGroup, if_neg hc, if_neg hg,
      List.filter_filter]
    apply List.filter_congr
    intro r _
    exact Bool.and_comm _ _
  · simp [adminFiltered, filterByClass, filterByGroup]
  · simp [adminFiltered, filterByClass, filterByGroup, hc]
  · simp [adminFiltered, filterByClass, filterByGroup, hg]
  · intro c g n hmem
    simp only [adminSummary, summaryOf, List.mem_map] at hmem
    obtain ⟨p, _, heq⟩ := hmem
    have h1 : p.1 = c := congrArg Prod.fst heq
    have hrest := congrArg Prod.snd heq
    have h2 : p.2 = g := congrArg Prod.fst hrest
    have h3 := congrArg Prod.snd hrest
    simp only at h1 h2 h3
    rw [← h3, h1, h2]

/-- Witness for C7 at a concrete ledger and a concrete non-sentinel filter
pair. -/
theorem admin_filter_summary_witness :
    ("Math101" ≠ allClassesSentinel ∧ "TeamA" ≠ allGroupsSentinel) ∧
      adminFiltered
          [⟨1, "2024-01-01 10:00:00", "Math101", "TeamA", "", "uploads/a", "a.txt", 3⟩,
           ⟨2, "2024-01-01 10:00:01", "Math101", "TeamB", "", "uploads/b", "b.txt", 4⟩]
          "Math101" "TeamA" =
        List.filter (fun r => r.class_name == "Math101" && r.group_name == "TeamA")
          [⟨1, "2024-01-01 10:00:00", "Math101", "TeamA", "", "uploads/a", "a.txt", 3⟩,
           ⟨2, "2024-01-01 10:00:01", "Math101", "TeamB", "", "uploads/b", "b.txt", 4⟩] :=
  ⟨⟨by decide, by decide⟩,
    (admin_filter_summary
      [⟨1, "2024-01-01 10:00:00", "Math101", "TeamA", "", "uploads/a", "a.txt", 3⟩,
       ⟨2, "2024-01-01 10:00:01", "Math101", "TeamB", "", "uploads/b", "b.txt", 4⟩]
      "Math101" "TeamA" (by decide) (by decide)).1⟩

/-! ### The whole persisted state: both tables together -/

/-- The persisted database: the `submissions` table and the `classes`
table. -/
structure Database where
  submissions : List Submission
  classes : Registry

/-- `set_class_active` as an operation on the whole database: the SQL
`UPDATE classes ...` touches only the `classes` table. -/
def db_set_class_active (db : Database) (class_id : Nat) (active : Bool) :
    Database :=
  { db with classes := set_class_active db.classes class_id active }

/-- **C6** — deactivating a class leaves the submission ledger untouched:
after `set_class_active` on the row named `"CS-101"` (class names are unique
by the table's UNIQUE constraint), the active-class list no longer contains
`"CS-101"`, while `get_all_submissions` and the summary table are exactly
what they were, and every prior `"CS-101"` submission is still listed. -/
theorem deactivate_class_frame (db : Database) (r0 : ClassEntry)
    (hmem : r0 ∈ db.classes.rows) (hname : r0.class_name = "CS-101")
    (hnodup : (db.classes.rows.map (·.class_name)).Nodup) :
    "CS-101" ∉ get_active_classes (db_set_class_active db r0.id false).classes ∧
    get_all_submissions (db_set_class_active db r0.id false).submissions =
      get_all_submissions db.submissions ∧
    summaryOf (db_set_class_active db r0.id false).submissions =
      summaryOf db.submissions ∧
    ∀ r ∈ db.submissions, r.class_name = "CS-101" →
      r ∈ get_all_submissions (db_set_class_active db r0.id false).submissions := by
  refine ⟨?_, rfl, rfl, ?_⟩
  · intro hin
    rw [get_active_classes, (sortBy_perm strLe _).mem_iff, List.mem_map] at hin
    obtain ⟨r', hr', hrname⟩ := hin
    rw [List.mem_filter] at hr'
    obtain ⟨hr'mem, hr'act⟩ := hr'
    simp only [db_set_class_active, set_class_active, List.mem_map] at hr'mem
    obtain ⟨r, hr, hrupd⟩ := hr'mem
    have hrn : r.class_name = "CS-101" := by
      rw [← hrname, ← hrupd]
      by_cases hid : r.id = r0.id <;> simp [hid]
    have : r = r0 :=
      List.inj_on_of_nodup_map hnodup hr hmem (hrn.trans hname.symm)
    subst this
    rw [← hrupd] at hr'act
    simp at hr'act
  · intro r hr _
    exact ((sortBy_perm subLe _).mem_iff).mpr hr

/-- Witness for C6 at a concrete database holding one `"CS-101"` submission
and one active `"CS-101"` class row. -/
theorem deactivate_class_frame_witness :
    ((⟨1, "CS-101", 1⟩ : ClassEntry) ∈
        (Database.mk [⟨1, "2024-01-01 10:00:00", "CS-101", "TeamA", "", "uploads/x", "x.pdf", 5⟩]
          ⟨[⟨1, "CS-101", 1⟩], 2⟩).classes.rows ∧
      (⟨1, "CS-101", 1⟩ : ClassEntry).class_name = "CS-101" ∧
      ((Database.mk [⟨1, "2024-01-01 10:00:00", "CS-101", "TeamA", "", "uploads/x", "x.pdf", 5⟩]
          ⟨[⟨1, "CS-101", 1⟩], 2⟩).classes.rows.map (·.class_name)).Nodup) ∧
      "CS-101" ∉ get_active_classes
        (db_set_class_active
          (Database.mk [⟨1, "2024-01-01 10:00:00", "CS-101", "TeamA", "", "uploads/x", "x.pdf", 5⟩]
            ⟨[⟨1, "CS-101", 1⟩], 2⟩)
          (⟨1, "CS-101", 1⟩ : ClassEntry).id false).classes :=
  ⟨⟨by decide, by decide, by decide⟩,
    (deactivate_class_frame
      (Database.mk [⟨1, "2024-01-01 10:00:00", "CS-101", "TeamA", "", "uploads/x", "x.pdf", 5⟩]
        ⟨[⟨1, "CS-101", 1⟩], 2⟩)
      ⟨1, "CS-101", 1⟩ (by decide) (by decide) (by decide)).1⟩

/-! ### File store and submission flow -/

/-- `UPLOAD_DIR` from `app.py`. -/
def UPLOAD_DIR : String := "uploads"

/-- An uploaded file as the form hands it over: its client-side name and
its byte content. -/
structure UploadedFile where
  name : String
  content : List UInt8

/-- `save_uploaded_file` from `app.py`, with the wall clock passed
explicitly: the directory is `UPLOAD_DIR/sanitized class/sanitized group`,
the stored name is `<timestamp>_<sanitized original name>`, and the call
returns `(file_path, original name, byte size)`.  Directory creation and
the byte write are filesystem effects outside the returned value. -/
def save_uploaded_file (now_str : String) (uf : UploadedFile)
    (class_name group_name : String) : String × String × Nat :=
  let safe_class := sanitize_name class_name
  let safe_group := sanitize_name group_name
  let target_dir := UPLOAD_DIR ++ "/" ++ safe_class ++ "/" ++ safe_group
  let file_name := now_str ++ "_" ++ sanitize_name uf.name
  let file_path := target_dir ++ "/" ++ file_name
  (file_path, uf.name, uf.content.length)

/-- `add_submission` from `app.py`: `INSERT INTO submissions ...` with a
server-assigned timestamp (passed explicitly) and the next AUTOINCREMENT
id. -/
def add_submission (db : List Submission)
    (timestamp class_name group_name notes file_path file_name : String)
    (file_size : Nat) : List Submission :=
  db ++ [⟨db.length + 1, timestamp, class_name, group_name, notes,
    file_path, file_name, file_size⟩]

/-- One iteration of the submit loop in `main`: store the file, then record
the ledger row with the trimmed class, group and notes, the stored path,
the unmodified original name and the byte size. -/
def submit_file (db : List Submission) (ts now_str : String)
    (uf : UploadedFile) (class_name group_name notes : String) :
    List Submission :=
  let r := save_uploaded_file now_str uf class_name group_name
  add_submission db ts (pyStrip class_name) (pyStrip group_name)
    (pyStrip notes) r.1 r.2.1 r.2.2

/-- **C2** — the claim as stated is false: the stored file name is
`<timestamp>_<sanitize(original name)>`, and sanitization replaces the dot
of `"report.pdf"`, so the name ends in `"_report_pdf"`, not
`"_report.pdf"`. -/
theorem submit_report_pdf_refuted :
    (save_uploaded_file "20240101_120000"
        ⟨"report.pdf", List.replicate 12 0⟩ "CS 101" "Team A").1 =
      "uploads/CS_101/Team_A/20240101_120000_report_pdf" ∧
    ¬ List.IsSuffix "_report.pdf".data
      (save_uploaded_file "20240101_120000"
        ⟨"report.pdf", List.replicate 12 0⟩ "CS 101" "Team A").1.data := by
  constructor <;> decide

/-- **C2** (amended) — submitting `"report.pdf"` of 12 bytes for class
`"CS 101"` and group `"Team A"` stores it at
`uploads/CS_101/Team_A/<timestamp>_report_pdf` — a path containing the
sanitized components `"CS_101"` and `"Team_A"` and a stored name of the
form `<timestamp>_<sanitize(original name)>` ending in `"_report_pdf"` —
and appends a ledger row with `file_size = 12`. -/
theorem submit_report_pdf (db : List Submission) (ts now_str : String)
    (content : List UInt8) (notes : String) (hlen : content.length = 12) :
    submit_file db ts now_str ⟨"report.pdf", content⟩ "CS 101" "Team A" notes =
      db ++ [⟨db.length + 1, ts, "CS 101", "Team A", pyStrip notes,
        "uploads/CS_101/Team_A/" ++ (now_str ++ "_report_pdf"),
        "report.pdf", 12⟩] ∧
    List.IsPrefix "uploads/CS_101/Team_A/".data
      ("uploads/CS_101/Team_A/" ++ (now_str ++ "_report_pdf")).data ∧
    List.IsSuffix "_report_pdf".data
      ("uploads/CS_101/Team_A/" ++ (now_str ++ "_report_pdf")).data := by
  refine ⟨?_, ⟨(now_str ++ "_report_pdf").data, by simp⟩,
    ⟨("uploads/CS_101/Team_A/" ++ now_str).data, by simp [String.data_append]⟩⟩
  have epath : (save_uploaded_file now_str
      ⟨"report.pdf", content⟩ "CS 101" "Team A").1 =
      "uploads/CS_101/Team_A/" ++ (now_str ++ "_report_pdf") := by
    show UPLOAD_DIR ++ "/" ++ sanitize_name "CS 101" ++ "/" ++
        sanitize_name "Team A" ++ "/" ++ (now_str ++ "_" ++ sanitize_name "report.pdf") =
      "uploads/CS_101/Team_A/" ++ (now_str ++ "_report_pdf")
    have e1 : UPLOAD_DIR ++ "/" ++ sanitize_name "CS 101" ++ "/" ++
        sanitize_name "Team A" ++ "/" = "uploads/CS_101/Team_A/" := by decide
    have e2 : sanitize_name "report.pdf" = "report_pdf" := by decide
    have e3 : ("_" : String) ++ "report_pdf" = "_report_pdf" := by decide
    rw [e1, e2, String.append_assoc now_str "_" "report_pdf", e3]
  show add_submission db ts (pyStrip "CS 101") (pyStrip "Team A") (pyStrip notes)
      (save_uploaded_file now_str ⟨"report.pdf", content⟩ "CS 101" "Team A").1
      "report.pdf" content.length = _
  rw [epath, hlen]
  have ec : pyStrip "CS 101" = "CS 101" := by decide
  have eg : pyStrip "Team A" = "Team A" := by decide
  rw [add_submission, ec, eg]

/-- Witness for C2 at concrete content of twelve zero bytes and a concrete
timestamp. -/
theorem submit_report_pdf_witness :
    (List.replicate 12 (0 : UInt8)).length = 12 ∧
      submit_file [] "2024-01-01 12:00:00" "20240101_120000"
          ⟨"report.pdf", List.replicate 12 0⟩ "CS 101" "Team A" "" =
        [] ++ [⟨([] : List Submission).length + 1, "2024-01-01 12:00:00", "CS 101", "Team A",
          pyStrip "",
          "uploads/CS_101/Team_A/" ++ ("20240101_120000" ++ "_report_pdf"),
          "report.pdf", 12⟩] :=
  ⟨by decide,
    (submit_report_pdf [] "2024-01-01 12:00:00" "20240101_120000"
      (List.replicate 12 0) "" (by decide)).1⟩

/-! ### Archive builder -/

/-- `os.path.basename` for forward-slash paths: the part after the last
separator. -/
def basename (p : String) : String :=
  (p.splitOn "/").getLastD p

/-- `create_zip_from_df` from `app.py`, with the filesystem as an explicit
existence predicate: for each row in order whose `file_path` is non-empty
and exists, one archive entry
`(sanitize(class)/sanitize(group)/file_name, file_path)` (with the basename
of `file_path` as fallback name); other rows are skipped silently. -/
def create_zip_from_df (fsExists : String → Bool) (df : List Submission) :
    List (String × String) :=
  df.filterMap (fun r =>
    if (r.file_path != "") && fsExists r.file_path then
      some (sanitize_name r.class_name ++ "/" ++ sanitize_name r.group_name ++ "/" ++
        (if r.file_name != "" then r.file_name else basename r.file_path),
        r.file_path)
    else none)

/-- **C3** — over rows with non-empty stored paths and recorded names (as
every row written by the submit flow has), the archive holds exactly one
entry per row whose backing file exists, at
`sanitize(class)/sanitize(group)/file_name`, in input order; rows whose
backing file is missing are skipped without failing the build.  The entry
count is exactly the number of rows with an existing backing file. -/
theorem create_zip_entries (fsExists : String → Bool) (df : List Submission)
    (hpath : ∀ r ∈ df, r.file_path ≠ "") (hname : ∀ r ∈ df, r.file_name ≠ "") :
    create_zip_from_df fsExists df =
      (df.filter (fun r => fsExists r.file_path)).map
        (fun r => (sanitize_name r.class_name ++ "/" ++
          sanitize_name r.group_name ++ "/" ++ r.file_name, r.file_path)) ∧
    (create_zip_from_df fsExists df).length =
      df.countP (fun r => fsExists r.file_path) := by
  have hmain : create_zip_from_df fsExists df =
      (df.filter (fun r => fsExists r.file_path)).map
        (fun r => (sanitize_name r.class_name ++ "/" ++
          sanitize_name r.group_name ++ "/" ++ r.file_name, r.file_path)) := by
    induction df with
    | nil => rfl
    | cons r rest ih =>
        have hp : (r.file_path != "") = true := by
          simpa using hpath r (by simp)
        have hn : (r.file_name != "") = true := by
          simpa using hname r (by simp)
        have ihr := ih (fun s hs => hpath s (by simp [hs]))
          (fun s hs => hname s (by simp [hs]))
        cases hex : fsExists r.file_path
        · rw [create_zip_from_df, List.filterMap_cons, List.filter_cons]
          simp only [hp, hex, Bool.and_false, if_neg]
          rw [← create_zip_from_df, ihr]
          simp [hex]
        · rw [create_zip_from_df, List.filterMap_cons, List.filter_cons]
          simp only [hp, hn, hex, Bool.and_true, if_pos]
          rw [← create_zip_from_df, ihr]
          simp [hex, hn]
  refine ⟨hmain, ?_⟩
  rw [hmain, List.length_map, List.countP_eq_length_filter]

/-- A two-row sample ledger for exercising the archive builder. -/
def zipSampleDf : List Submission :=
  [⟨1, "2024-01-01 10:00:00", "CS 101", "Team A", "",
    "uploads/CS_101/Team_A/a_x.pdf", "x.pdf", 3⟩,
   ⟨2, "2024-01-01 10:00:01", "CS 101", "Team B", "",
    "uploads/CS_101/Team_B/a_y.pdf", "y.pdf", 4⟩]

/-- A filesystem on which only the first sample row's stored file exists. -/
def zipSampleFs : String → Bool :=
  fun p => p == "uploads/CS_101/Team_A/a_x.pdf"

/-- Witness for C3: of two ledger rows only the first has a backing file,
and the archive holds exactly that one entry. -/
theorem create_zip_entries_witness :
    (∀ r ∈ zipSampleDf, r.file_path ≠ "") ∧
    (∀ r ∈ zipSampleDf, r.file_name ≠ "") ∧
    (create_zip_from_df zipSampleFs zipSampleDf).length =
      zipSampleDf.countP (fun r => zipSampleFs r.file_path) :=
  ⟨by decide, by decide,
    (create_zip_entries zipSampleFs zipSampleDf (by decide) (by decide)).2⟩

end App
